import Mathlib

/-!
Verification development for the hybrid protein-fitness model
(Protein-Engineering-Framework/Hybrid_Model).

The repository ships the worked example `src/Examples/example_pabp.ipynb`,
which drives the class `Hybrid_Model` of `scripts/hybrid_model.py`
(`predict`, `_settings`, `performance`).  The script itself is not part of
the sources available here, so the component bodies are modelled from the
design document, while the calling conventions (argument lists, return
arities) are pinned by the notebook, which is available.  Vectors are
total functions `Fin n → ℚ`; exact rational arithmetic stands in for
floating point.
-/

namespace HybridModel

/-- Dot product of two rational vectors. -/
def dot {n : ℕ} (u v : Fin n → ℚ) : ℚ := ∑ i, u i * v i

/-- Modelled from the spec (§4.2, Statistical Score Extractor); the body of
`scripts/hybrid_model.py` is missing from the sources.  The raw statistical
energy of a feature vector is the sum of the subset of feature dimensions
that represent pairwise/field coupling contributions; `cidx` lists those
dimensions. -/
def rawEnergy {d : ℕ} (cidx : List (Fin d)) (x : Fin d → ℚ) : ℚ :=
  (cidx.map x).sum

/-- Modelled from the spec (§4.2): the statistical energy of a feature
vector is its raw coupling energy centred by subtracting the wild type's
own raw energy. -/
def statEnergy {d : ℕ} (cidx : List (Fin d)) (wt x : Fin d → ℚ) : ℚ :=
  rawEnergy cidx x - rawEnergy cidx wt

/-- A fitted ridge-regression model: linear coefficients, an intercept, and
the regularization strength selected by the internal cross-validated
search (spec §4.3 step 2); the strength is recorded on the fitted model. -/
structure Ridge (d : ℕ) where
  coef : Fin d → ℚ
  intercept : ℚ
  alpha : ℚ

/-- Prediction of a fitted ridge model on one feature row. -/
def Ridge.predictRow {d : ℕ} (m : Ridge d) (x : Fin d → ℚ) : ℚ :=
  dot m.coef x + m.intercept

/-- A ridge-fitting procedure: from a training feature matrix and label
vector it produces a fitted ridge model.  The spec (§9) leaves the exact
cross-validation grid open, so the Fitter is parametrized by it. -/
def RidgeFitter (n d : ℕ) : Type :=
  (Fin n → Fin d → ℚ) → (Fin n → ℚ) → Ridge d

/-- A ridge-fitting procedure usable on training folds of any row count. -/
def RidgeFitterU (d : ℕ) : Type :=
  (n : ℕ) → RidgeFitter n d

/-- Statistical-energy vector of the rows of a feature matrix. -/
def statVec {n d : ℕ} (cidx : List (Fin d)) (wt : Fin d → ℚ)
    (X : Fin n → Fin d → ℚ) : Fin n → ℚ :=
  fun i => statEnergy cidx wt (X i)

/-- Raw ridge-prediction vector of the rows of a feature matrix. -/
def ridgeVec {n d : ℕ} (m : Ridge d) (X : Fin n → Fin d → ℚ) : Fin n → ℚ :=
  fun i => m.predictRow (X i)

/-- Gram determinant of the two candidate predictors. -/
def gram {n : ℕ} (s r : Fin n → ℚ) : ℚ :=
  dot s s * dot r r - dot s r * dot s r

/-- Modelled from the spec (§4.3 step 3): the two blending weights solve
the 2-parameter ordinary least-squares regression of the labels `y` on the
statistical energies `s` and the raw ridge predictions `r` jointly, via
the 2×2 normal equations (Cramer's rule).  Per §4.3 Errors, a
rank-deficient system does not abort: the weight of the degenerate term is
fixed at zero and the remaining weight is fitted alone. -/
def fitBetas {n : ℕ} (s r y : Fin n → ℚ) : ℚ × ℚ :=
  if gram s r = 0 then
    if dot s s = 0 then (0, if dot r r = 0 then 0 else dot r y / dot r r)
    else (dot s y / dot s s, 0)
  else
    ((dot r r * dot s y - dot s r * dot r y) / gram s r,
     (dot s s * dot r y - dot s r * dot s y) / gram s r)

/-- Training squared error of the blend `b1 • s + b2 • r` against `y`. -/
def sqErr {n : ℕ} (s r y : Fin n → ℚ) (b1 b2 : ℚ) : ℚ :=
  ∑ i, (y i - b1 * s i - b2 * r i) ^ 2

/-- Modelled from the spec (§4.3, Weight & Supervised-Model Fitter); the
body of `scripts/hybrid_model.py` is missing from the sources.  From a
training fold: fit the ridge model on the full feature matrix against the
labels, compute the statistical-energy vector, and solve the 2-parameter
least squares for the blending weights.  The return arity — the triple
(beta1, beta2, fitted ridge model) — is pinned by the successful
three-name unpacking `beta1,beta2,ridge=hybrid_model._settings(X,y)` in
`src/Examples/example_pabp.ipynb`. -/
def settings {n d : ℕ} (fitR : RidgeFitter n d) (cidx : List (Fin d))
    (wt : Fin d → ℚ) (X : Fin n → Fin d → ℚ) (y : Fin n → ℚ) :
    ℚ × ℚ × Ridge d :=
  let rm := fitR X y
  let fb := fitBetas (statVec cidx wt X) (ridgeVec rm X) y
  (fb.1, fb.2, rm)

/-- A dynamically-typed component of the Python tuple returned by
`_settings`: either a numeric weight or a fitted ridge model. -/
inductive PyVal (d : ℕ) where
  | num : ℚ → PyVal d
  | model : Ridge d → PyVal d

/-- The value returned by `_settings` seen as the Python tuple the caller
unpacks: the component list of the result of `settings`. -/
def settingsReturn {n d : ℕ} (fitR : RidgeFitter n d) (cidx : List (Fin d))
    (wt : Fin d → ℚ) (X : Fin n → Fin d → ℚ) (y : Fin n → ℚ) :
    List (PyVal d) :=
  [PyVal.num (settings fitR cidx wt X y).1,
   PyVal.num (settings fitR cidx wt X y).2.1,
   PyVal.model (settings fitR cidx wt X y).2.2]

/-- Modelled from the spec (§4.4, Predictor); the body of
`scripts/hybrid_model.py` is missing from the sources.  Entry `i` of the
prediction vector is `beta1 * statistical_energy(row i) + beta2 *
ridge_model.predict(row i)`; the wild-type encoding enters only through
the centring of the statistical energy. -/
def predict {m d : ℕ} (cidx : List (Fin d)) (wt : Fin d → ℚ)
    (X : Fin m → Fin d → ℚ) (rm : Ridge d) (b1 b2 : ℚ) : Fin m → ℚ :=
  fun i => b1 * statEnergy cidx wt (X i) + b2 * rm.predictRow (X i)

/-- One variant record: a feature row and its measured fitness label. -/
def Row (d : ℕ) : Type := (Fin d → ℚ) × ℚ

/-- Linear congruential pseudo-random step (31-bit), used to derive the
reproducible per-repeat shuffles from the explicit seed (spec §9: the
split takes an explicit seed rather than ambient global random state). -/
def lcg (x : ℕ) : ℕ := (1103515245 * x + 12345) % 2 ^ 31

/-- Insert one keyed element into a key-sorted list. -/
def insertByKey {α : Type} (p : ℕ × α) : List (ℕ × α) → List (ℕ × α)
  | [] => [p]
  | q :: qs => if p.1 ≤ q.1 then p :: q :: qs else q :: insertByKey p qs

/-- Sort a list of keyed elements by key (insertion sort). -/
def sortByKey {α : Type} : List (ℕ × α) → List (ℕ × α)
  | [] => []
  | p :: ps => insertByKey p (sortByKey ps)

/-- Modelled from the spec (§4.5): a reproducible pseudo-random shuffle of
the dataset rows, obtained by keying each row position with a hash of the
seed and sorting by key. -/
def shuffleRows {α : Type} (seed : ℕ) (rows : List α) : List α :=
  (sortByKey ((List.range rows.length).zip rows |>.map
    (fun pr => (lcg (seed + 2654435761 * pr.1), pr.2)))).map (fun pr => pr.2)

/-- Number of training rows for a split ratio (default 0.8 train): the
floor of the ratio times the row count, computed on the numerator and
denominator of the rational ratio (for the nonnegative ratios in use this
is exactly the floor of `ratio * n`). -/
def trainCount (ratio : ℚ) (n : ℕ) : ℕ :=
  ((ratio.num * (n : ℤ)) / (ratio.den : ℤ)).toNat

/-- Training fold of one Evaluator repeat. -/
def trainFold {d : ℕ} (ratio : ℚ) (seed : ℕ) (rows : List (Row d)) :
    List (Row d) :=
  (shuffleRows seed rows).take (trainCount ratio rows.length)

/-- Held-out test fold of one Evaluator repeat. -/
def testFold {d : ℕ} (ratio : ℚ) (seed : ℕ) (rows : List (Row d)) :
    List (Row d) :=
  (shuffleRows seed rows).drop (trainCount ratio rows.length)

/-- Feature matrix of a list of rows. -/
def featOf {d : ℕ} (rs : List (Row d)) : Fin rs.length → Fin d → ℚ :=
  fun i => (rs.get i).1

/-- Label vector of a list of rows. -/
def labelOf {d : ℕ} (rs : List (Row d)) : Fin rs.length → ℚ :=
  fun i => (rs.get i).2

/-- The hybrid model fitted on the training fold of one repeat. -/
def repeatModel {d : ℕ} (fitR : RidgeFitterU d) (cidx : List (Fin d))
    (wt : Fin d → ℚ) (ratio : ℚ) (seed : ℕ) (rows : List (Row d)) :
    ℚ × ℚ × Ridge d :=
  settings (fitR (trainFold ratio seed rows).length) cidx wt
    (featOf (trainFold ratio seed rows)) (labelOf (trainFold ratio seed rows))

/-- Blended predictions of one repeat's fitted model on its test fold. -/
def repeatPreds {d : ℕ} (fitR : RidgeFitterU d) (cidx : List (Fin d))
    (wt : Fin d → ℚ) (ratio : ℚ) (seed : ℕ) (rows : List (Row d)) :
    Fin (testFold ratio seed rows).length → ℚ :=
  predict cidx wt (featOf (testFold ratio seed rows))
    (repeatModel fitR cidx wt ratio seed rows).2.2
    (repeatModel fitR cidx wt ratio seed rows).1
    (repeatModel fitR cidx wt ratio seed rows).2.1

/-- Measured fitness values of one repeat's test fold. -/
def repeatMeas {d : ℕ} (ratio : ℚ) (seed : ℕ) (rows : List (Row d)) :
    Fin (testFold ratio seed rows).length → ℚ :=
  labelOf (testFold ratio seed rows)

/-- Error raised when a test fold admits no defined rank correlation. -/
inductive FoldErr where
  | degenerateFold : FoldErr
deriving DecidableEq

/-- Numerator of the variance of a vector (sum of squared deviations from
the mean); it is zero exactly when the vector is constant. -/
def varNum {k : ℕ} (v : Fin k → ℚ) : ℚ :=
  ∑ i, (v i - (∑ j, v j) / (k : ℚ)) ^ 2

/-- Rank of entry `i` of a vector: the number of strictly smaller entries. -/
def rankOf {k : ℕ} (v : Fin k → ℚ) (i : Fin k) : ℚ :=
  ((Finset.univ.filter (fun j => v j < v i)).card : ℚ)

/-- Spearman rank correlation via the rank-difference formula. -/
def spearmanRho {k : ℕ} (p q : Fin k → ℚ) : ℚ :=
  1 - 6 * (∑ i, (rankOf p i - rankOf q i) ^ 2) / ((k : ℚ) * ((k : ℚ) ^ 2 - 1))

/-- Modelled from the spec (§4.5 edge case): score one fold, signalling
`DegenerateFoldError` when the fold has fewer than 2 rows or zero variance
in either the predicted or the measured values, instead of returning NaN. -/
def foldScore {k : ℕ} (p q : Fin k → ℚ) : Except FoldErr ℚ :=
  if k < 2 ∨ varNum p = 0 ∨ varNum q = 0 then Except.error FoldErr.degenerateFold
  else Except.ok (spearmanRho p q)

/-- Modelled from the spec (§4.5, Evaluator); the body of
`scripts/hybrid_model.py` is missing from the sources.  One repeat: draw
the seeded split, fit on the training fold, predict on the test fold,
and score the prediction by rank correlation. -/
def oneRepeat {d : ℕ} (fitR : RidgeFitterU d) (cidx : List (Fin d))
    (wt : Fin d → ℚ) (ratio : ℚ) (seed : ℕ) (rows : List (Row d)) :
    Except FoldErr ℚ :=
  foldScore (repeatPreds fitR cidx wt ratio seed rows)
    (repeatMeas ratio seed rows)

/-- Seed of repeat `k`, derived from the explicit run seed. -/
def repeatSeed (seed k : ℕ) : ℕ := lcg (seed + 1000003 * k)

/-- Modelled from the spec (§4.5): the Evaluator returns one score (or one
per-repeat fold error) per repeat, each repeat drawing an independent
reproducible split from the run seed. -/
def evaluatorScores {d : ℕ} (fitR : RidgeFitterU d) (cidx : List (Fin d))
    (wt : Fin d → ℚ) (rows : List (Row d)) (ratio : ℚ) (reps seed : ℕ) :
    List (Except FoldErr ℚ) :=
  (List.range reps).map (fun k => oneRepeat fitR cidx wt ratio (repeatSeed seed k) rows)

/-- Modelled from the spec: the default split ratio is 0.8 train. -/
def defaultRatio : ℚ := mkRat 4 5

/-- Modelled from the spec: the exact default repeat count of
`Hybrid_Model.performance` is not given by the available material ("small-N");
the notebook's use of the sample standard deviation with ddof=1 on the
returned collection requires at least 2 repeats, so a small-N default of
10 is modelled. -/
def defaultRepeats : ℕ := 10

/-- Modelled from the spec (§6): the performance operation with default
arguments — default split ratio and default repeat count. -/
def performance {d : ℕ} (fitR : RidgeFitterU d) (cidx : List (Fin d))
    (wt : Fin d → ℚ) (rows : List (Row d)) (seed : ℕ) :
    List (Except FoldErr ℚ) :=
  evaluatorScores fitR cidx wt rows defaultRatio defaultRepeats seed

/-- Numeric value of a per-repeat outcome (fold errors mapped to 0), used
only to state definedness of the aggregate statistics. -/
def scoreVal : Except FoldErr ℚ → ℚ
  | Except.ok v => v
  | Except.error _ => 0

/-- Sample variance with Bessel's correction (ddof=1); undefined (none)
on collections of fewer than 2 values. -/
def sampleVarB (xs : List ℚ) : Option ℚ :=
  if xs.length < 2 then none
  else some ((xs.map (fun x => (x - xs.sum / (xs.length : ℚ)) ^ 2)).sum
    / ((xs.length : ℚ) - 1))

/-- The mutable `Hybrid_Model` object state: the loaded dataset (feature
matrix, labels, wild-type encoding, coupling-dimension list) together with
the mutable fitted-weight fields the object caches (spec §9 notes the
source holds loaded data and fitted weights in one mutable object). -/
structure HMState (m d : ℕ) where
  X : Fin m → Fin d → ℚ
  y : Fin m → ℚ
  wt : Fin d → ℚ
  cidx : List (Fin d)
  beta1 : ℚ
  beta2 : ℚ
  ridge : Ridge d

/-- A fit or predict call on a `Hybrid_Model` instance: `fitOwn` refits on
the stored dataset, `fitOn` on caller-supplied data (the notebook's direct
`_settings` call), `predictOn` predicts caller-supplied rows with an
explicit fitted tuple. -/
inductive HMCall (m d : ℕ) where
  | fitOwn : RidgeFitter m d → HMCall m d
  | fitOn : (nr : ℕ) → RidgeFitter nr d → (Fin nr → Fin d → ℚ) →
      (Fin nr → ℚ) → HMCall m d
  | predictOn : (k : ℕ) → (Fin k → Fin d → ℚ) → Ridge d → ℚ → ℚ → HMCall m d

/-- Modelled from the spec: state transition of one call.  Fit calls store
the newly fitted weights and model in the mutable fields; predict calls
compute their output from the arguments and the stored wild-type encoding.
No call writes the loaded dataset. -/
def runCall {m d : ℕ} (st : HMState m d) : HMCall m d → HMState m d
  | HMCall.fitOwn fr =>
    let t := settings fr st.cidx st.wt st.X st.y
    { st with beta1 := t.1, beta2 := t.2.1, ridge := t.2.2 }
  | HMCall.fitOn _ fr Xt yt =>
    let t := settings fr st.cidx st.wt Xt yt
    { st with beta1 := t.1, beta2 := t.2.1, ridge := t.2.2 }
  | HMCall.predictOn _ _ _ _ _ => st

/-- Run a sequence of fit/predict calls on a `Hybrid_Model` instance. -/
def runCalls {m d : ℕ} (cs : List (HMCall m d)) (st : HMState m d) :
    HMState m d :=
  cs.foldl runCall st

/-- The predict method as a state transformer: its result paired with the
state it leaves behind (unchanged — prediction keeps no hidden state). -/
def predictOp {m d k : ℕ} (st : HMState m d) (Xq : Fin k → Fin d → ℚ)
    (rm : Ridge d) (b1 b2 : ℚ) : (Fin k → ℚ) × HMState m d :=
  (predict st.cidx st.wt Xq rm b1 b2, st)

/-- Concrete two-row, one-feature matrix used for instance checks. -/
def exX : Fin 2 → Fin 1 → ℚ := fun i _ => if i = 0 then 1 else 0

/-- Concrete label vector for `exX`. -/
def exY : Fin 2 → ℚ := fun i => if i = 0 then 1 else 0

/-- Concrete wild-type encoding used for instance checks. -/
def exWt : Fin 1 → ℚ := fun _ => 0

/-- Concrete coupling-dimension list used for instance checks. -/
def exCidx : List (Fin 1) := [0]

/-- Concrete ridge fitter (constant output) used for instance checks. -/
def exFitR : RidgeFitter 2 1 := fun _ _ => ⟨fun _ => 1, 0, 1⟩

/-- Concrete fold-count-generic ridge fitter used for instance checks. -/
def exFitRU : RidgeFitterU 1 := fun _ => fun _ _ => ⟨fun _ => 1, 0, 1⟩

/-- Concrete one-row dataset used for instance checks. -/
def exRows1 : List (Row 1) := [(fun _ => 1, 1)]

/-- Concrete two-row dataset used for instance checks. -/
def exRows2 : List (Row 1) := [(fun _ => 1, 1), (fun _ => 0, 0)]

/-- A vector whose dot product with itself vanishes is the zero vector. -/
lemma dot_self_zero {n : ℕ} {s : Fin n → ℚ} (h : dot s s = 0) (i : Fin n) :
    s i = 0 := by
  rw [dot] at h
  have h0 : ∀ j ∈ Finset.univ, (0 : ℚ) ≤ s j * s j :=
    fun j _ => mul_self_nonneg (s j)
  exact mul_self_eq_zero.mp
    ((Finset.sum_eq_zero_iff_of_nonneg h0).mp h i (Finset.mem_univ i))

/-- Dot product of the residual with the first predictor, expanded. -/
lemma sum_mul_res₁ {n : ℕ} (s r y : Fin n → ℚ) (b1 b2 : ℚ) :
    (∑ i, s i * (y i - b1 * s i - b2 * r i))
      = dot s y - b1 * dot s s - b2 * dot s r := by
  simp only [dot, Finset.mul_sum, ← Finset.sum_sub_distrib]
  exact Finset.sum_congr rfl (fun i _ => by ring)

/-- Dot product of the residual with the second predictor, expanded. -/
lemma sum_mul_res₂ {n : ℕ} (s r y : Fin n → ℚ) (b1 b2 : ℚ) :
    (∑ i, r i * (y i - b1 * s i - b2 * r i))
      = dot r y - b1 * dot s r - b2 * dot r r := by
  simp only [dot, Finset.mul_sum, ← Finset.sum_sub_distrib]
  exact Finset.sum_congr rfl (fun i _ => by ring)

/-- Completion-of-the-square expansion of the blended squared error around
a candidate pair of weights. -/
lemma sqErr_expand {n : ℕ} (s r y : Fin n → ℚ) (b1 b2 c1 c2 : ℚ) :
    sqErr s r y c1 c2
      = sqErr s r y b1 b2
        + 2 * (b1 - c1) * (∑ i, s i * (y i - b1 * s i - b2 * r i))
        + 2 * (b2 - c2) * (∑ i, r i * (y i - b1 * s i - b2 * r i))
        + ∑ i, ((b1 - c1) * s i + (b2 - c2) * r i) ^ 2 := by
  simp only [sqErr, Finset.mul_sum, ← Finset.sum_add_distrib]
  exact Finset.sum_congr rfl (fun i _ => by ring)

/-- Weights that satisfy the two normal equations minimize the blended
squared error globally. -/
lemma ols_opt {n : ℕ} {s r y : Fin n → ℚ} {b1 b2 : ℚ}
    (h1 : dot s y = b1 * dot s s + b2 * dot s r)
    (h2 : dot r y = b1 * dot s r + b2 * dot r r)
    (c1 c2 : ℚ) : sqErr s r y b1 b2 ≤ sqErr s r y c1 c2 := by
  have e1 : (∑ i, s i * (y i - b1 * s i - b2 * r i)) = 0 := by
    rw [sum_mul_res₁, h1]; ring
  have e2 : (∑ i, r i * (y i - b1 * s i - b2 * r i)) = 0 := by
    rw [sum_mul_res₂, h2]; ring
  have expand := sqErr_expand s r y b1 b2 c1 c2
  rw [e1, e2] at expand
  have hnn : (0 : ℚ) ≤ ∑ i, ((b1 - c1) * s i + (b2 - c2) * r i) ^ 2 :=
    Finset.sum_nonneg (fun i _ => sq_nonneg _)
  rw [expand]; linarith

/-- Dot product of a linear combination with itself, expanded in the Gram
entries of the two vectors. -/
lemma dot_lin_comb {n : ℕ} (s r : Fin n → ℚ) (a b : ℚ) :
    dot (fun i => a * r i - b * s i) (fun i => a * r i - b * s i)
      = a * a * dot r r - 2 * (a * b) * dot s r + b * b * dot s s := by
  simp only [dot, Finset.mul_sum, ← Finset.sum_sub_distrib,
    ← Finset.sum_add_distrib]
  exact Finset.sum_congr rfl (fun i _ => by ring)

/-- Expansion of a Cramer-style combination of label dot products as one
sum over rows. -/
lemma dot_cross_expand {n : ℕ} (s r y : Fin n → ℚ) :
    dot s s * dot r y - dot s r * dot s y
      = ∑ i, (dot s s * r i - dot s r * s i) * y i := by
  simp only [dot, Finset.mul_sum, ← Finset.sum_sub_distrib]
  exact Finset.sum_congr rfl (fun i _ => by ring)

/-- When the Gram determinant vanishes and the first predictor is not
degenerate, the two predictors are rationally proportional, so the
Cramer cross combination of the label dot products vanishes. -/
lemma gram_zero_cross {n : ℕ} {s r : Fin n → ℚ} (y : Fin n → ℚ)
    (hg : gram s r = 0) :
    dot s s * dot r y - dot s r * dot s y = 0 := by
  have hcomb : dot (fun i => dot s s * r i - dot s r * s i)
      (fun i => dot s s * r i - dot s r * s i) = dot s s * gram s r := by
    rw [dot_lin_comb, gram]; ring
  rw [hg, mul_zero] at hcomb
  have hz := dot_self_zero hcomb
  rw [dot_cross_expand]
  exact Finset.sum_eq_zero (fun i _ => by rw [hz i, zero_mul])

/-- The weights computed by `fitBetas` satisfy the two normal equations of
the 2-parameter least-squares problem in every branch, including the
rank-deficient fallbacks. -/
lemma fitBetas_normal {n : ℕ} (s r y : Fin n → ℚ) :
    dot s y = (fitBetas s r y).1 * dot s s + (fitBetas s r y).2 * dot s r ∧
    dot r y = (fitBetas s r y).1 * dot s r + (fitBetas s r y).2 * dot r r := by
  by_cases hg : gram s r = 0
  · by_cases ha : dot s s = 0
    · have hs0 := dot_self_zero ha
      have hp : dot s y = 0 := by
        rw [dot]; exact Finset.sum_eq_zero (fun i _ => by rw [hs0 i, zero_mul])
      have hb : dot s r = 0 := by
        rw [dot]; exact Finset.sum_eq_zero (fun i _ => by rw [hs0 i, zero_mul])
      by_cases hc : dot r r = 0
      · have hr0 := dot_self_zero hc
        have hq : dot r y = 0 := by
          rw [dot]; exact Finset.sum_eq_zero (fun i _ => by rw [hr0 i, zero_mul])
        rw [fitBetas, if_pos hg, if_pos ha, if_pos hc]
        constructor
        · rw [hp, hb]; ring
        · rw [hq, hb, hc]; ring
      · rw [fitBetas, if_pos hg, if_pos ha, if_neg hc]
        constructor
        · rw [hp, hb]; ring
        · rw [hb]
          field_simp
    · have hcross := gram_zero_cross y hg
      rw [fitBetas, if_pos hg, if_neg ha]
      constructor
      · field_simp
      · field_simp
        linear_combination hcross
  · rw [fitBetas, if_neg hg]
    have hgg : gram s r ≠ 0 := hg
    rw [gram] at hgg
    constructor
    · rw [gram]; field_simp; ring
    · rw [gram]; field_simp; ring

/-- The weights computed by `fitBetas` minimize the blended training
squared error over all weight pairs. -/
lemma fitBetas_optimal {n : ℕ} (s r y : Fin n → ℚ) (c1 c2 : ℚ) :
    sqErr s r y (fitBetas s r y).1 (fitBetas s r y).2 ≤ sqErr s r y c1 c2 :=
  ols_opt (fitBetas_normal s r y).1 (fitBetas_normal s r y).2 c1 c2

/-- C1: for every feature matrix, fitted ridge model, and weights beta1
and beta2, the Predictor returns a prediction vector whose entry `i`
equals beta1 times the statistical energy of row `i` plus beta2 times the
ridge model's prediction on row `i`. -/
theorem predict_entry_formula {m d : ℕ} (cidx : List (Fin d))
    (wt : Fin d → ℚ) (X : Fin m → Fin d → ℚ) (rm : Ridge d) (b1 b2 : ℚ)
    (i : Fin m) :
    predict cidx wt X rm b1 b2 i
      = b1 * statEnergy cidx wt (X i) + b2 * rm.predictRow (X i) := rfl

/-- C2 counterexample: at a concrete training input, the tuple returned by
the weight-and-model fitting operation does not have four components —
the caller in `src/Examples/example_pabp.ipynb` successfully unpacks it
into exactly three names. -/
theorem settings_not_four_components :
    (settingsReturn exFitR exCidx exWt exX exY).length ≠ 4 := by
  decide

/-- C2 amended: for every valid training input, the weight-and-model
fitting operation returns the three-component tuple (beta1, beta2, fitted
ridge model); the selected regularization strength is carried inside the
fitted ridge model rather than as a separate fourth component. -/
theorem settings_returns_three_components {n d : ℕ} (fitR : RidgeFitter n d)
    (cidx : List (Fin d)) (wt : Fin d → ℚ) (X : Fin n → Fin d → ℚ)
    (y : Fin n → ℚ) :
    settingsReturn fitR cidx wt X y
      = [PyVal.num (settings fitR cidx wt X y).1,
         PyVal.num (settings fitR cidx wt X y).2.1,
         PyVal.model (settings fitR cidx wt X y).2.2]
      ∧ (settingsReturn fitR cidx wt X y).length = 3 := ⟨rfl, rfl⟩

/-- C3: for every loaded dataset, the Statistical Score Extractor applied
to the wild-type reference encoding itself returns exactly the reference
value zero after centering, independent of beta1 and beta2 (which do not
enter the computation). -/
theorem statEnergy_wildtype_zero {d : ℕ} (cidx : List (Fin d))
    (wt : Fin d → ℚ) (beta1 beta2 : ℚ) :
    statEnergy cidx wt wt = 0 := sub_self _

/-- C4: for every training fold, the fitted weights beta1 and beta2 solve
the 2-parameter ordinary least-squares regression of the measured fitness
`y` jointly on the statistical-energy vector and the ridge model's raw
prediction vector: they minimize the training squared error of the blend
over all candidate weight pairs. -/
theorem settings_weights_minimize_training_error {n d : ℕ}
    (fitR : RidgeFitter n d) (cidx : List (Fin d)) (wt : Fin d → ℚ)
    (X : Fin n → Fin d → ℚ) (y : Fin n → ℚ) (c1 c2 : ℚ) :
    sqErr (statVec cidx wt X) (ridgeVec (fitR X y) X) y
        (settings fitR cidx wt X y).1 (settings fitR cidx wt X y).2.1
      ≤ sqErr (statVec cidx wt X) (ridgeVec (fitR X y) X) y c1 c2 :=
  fitBetas_optimal (statVec cidx wt X) (ridgeVec (fitR X y) X) y c1 c2

/-- C5: for every training fold with at least 2 rows and non-constant
features, the fitted blend achieves training squared error no worse than
the pure statistical signal beta1 = 1, beta2 = 0 (in this exact-rational
embedding the fitted weights are rational numbers, hence finite). -/
theorem settings_no_worse_than_pure_statistical {n d : ℕ}
    (fitR : RidgeFitter n d) (cidx : List (Fin d)) (wt : Fin d → ℚ)
    (X : Fin n → Fin d → ℚ) (y : Fin n → ℚ)
    (hrows : 2 ≤ n) (hnc : ∃ j i₁ i₂, X i₁ j ≠ X i₂ j) :
    sqErr (statVec cidx wt X) (ridgeVec (fitR X y) X) y
        (settings fitR cidx wt X y).1 (settings fitR cidx wt X y).2.1
      ≤ sqErr (statVec cidx wt X) (ridgeVec (fitR X y) X) y 1 0 :=
  fitBetas_optimal (statVec cidx wt X) (ridgeVec (fitR X y) X) y 1 0

/-- C5 witness: the hypotheses hold and the conclusion is obtained at a
concrete two-row training fold. -/
theorem settings_no_worse_than_pure_statistical_witness :
    2 ≤ 2 ∧ (∃ j i₁ i₂, exX i₁ j ≠ exX i₂ j) ∧
    sqErr (statVec exCidx exWt exX) (ridgeVec (exFitR exX exY) exX) exY
        (settings exFitR exCidx exWt exX exY).1
        (settings exFitR exCidx exWt exX exY).2.1
      ≤ sqErr (statVec exCidx exWt exX) (ridgeVec (exFitR exX exY) exX) exY
        1 0 :=
  ⟨le_refl 2, ⟨0, 0, 1, by decide⟩,
    settings_no_worse_than_pure_statistical exFitR exCidx exWt exX exY
      (le_refl 2) ⟨0, 0, 1, by decide⟩⟩

/-- C6: two Evaluator runs on the same dataset and split ratio with the
same seed and the same repeat count produce identical sequences of
per-repeat scores. -/
theorem evaluator_seed_reproducible {d : ℕ} (fitR : RidgeFitterU d)
    (cidx : List (Fin d)) (wt : Fin d → ℚ) (rows : List (Row d)) (ratio : ℚ)
    (reps₁ reps₂ seed₁ seed₂ : ℕ) (hreps : reps₁ = reps₂)
    (hseed : seed₁ = seed₂) :
    evaluatorScores fitR cidx wt rows ratio reps₁ seed₁
      = evaluatorScores fitR cidx wt rows ratio reps₂ seed₂ := by
  rw [hreps, hseed]

/-- C6 witness: the reproducibility theorem applied to a concrete dataset,
seed and repeat count. -/
theorem evaluator_seed_reproducible_witness :
    evaluatorScores exFitRU exCidx exWt exRows2 defaultRatio 2 7
      = evaluatorScores exFitRU exCidx exWt exRows2 defaultRatio 2 7 :=
  evaluator_seed_reproducible exFitRU exCidx exWt exRows2 defaultRatio
    2 2 7 7 rfl rfl

/-- C7: with a fixed fitted model and feature matrix, calling the
Predictor twice in sequence returns identical output vectors — the second
call runs on the state the first call leaves behind, and prediction keeps
no hidden mutable state. -/
theorem predict_idempotent {m d k : ℕ} (st : HMState m d)
    (Xq : Fin k → Fin d → ℚ) (rm : Ridge d) (b1 b2 : ℚ) :
    (predictOp st Xq rm b1 b2).1
      = (predictOp (predictOp st Xq rm b1 b2).2 Xq rm b1 b2).1 := rfl

/-- C8: an Evaluator repeat whose test fold has fewer than 2 rows, or zero
variance in the predicted or the measured values, signals
`DegenerateFoldError` for that repeat instead of returning a correlation
value. -/
theorem degenerate_fold_signals_error {d : ℕ} (fitR : RidgeFitterU d)
    (cidx : List (Fin d)) (wt : Fin d → ℚ) (ratio : ℚ) (seed : ℕ)
    (rows : List (Row d))
    (h : (testFold ratio seed rows).length < 2
        ∨ varNum (repeatPreds fitR cidx wt ratio seed rows) = 0
        ∨ varNum (repeatMeas ratio seed rows) = 0) :
    oneRepeat fitR cidx wt ratio seed rows
      = Except.error FoldErr.degenerateFold := by
  rw [oneRepeat, foldScore, if_pos h]

/-- C8 witness: a one-row dataset gives a one-row test fold, and the
repeat signals the degenerate-fold error. -/
theorem degenerate_fold_signals_error_witness :
    ((testFold (d := 1) defaultRatio 7 exRows1).length < 2
        ∨ varNum (repeatPreds exFitRU exCidx exWt defaultRatio 7 exRows1) = 0
        ∨ varNum (repeatMeas (d := 1) defaultRatio 7 exRows1) = 0)
    ∧ oneRepeat exFitRU exCidx exWt defaultRatio 7 exRows1
        = Except.error FoldErr.degenerateFold :=
  ⟨Or.inl (by decide),
    degenerate_fold_signals_error exFitRU exCidx exWt defaultRatio 7 exRows1
      (Or.inl (by decide))⟩

/-- C9: every sequence of fit and predict calls on a hybrid model instance
leaves the originally loaded dataset — feature matrix, label vector, and
wild-type reference encoding — unchanged. -/
theorem dataset_unchanged_by_calls {m d : ℕ} (cs : List (HMCall m d))
    (st : HMState m d) :
    (runCalls cs st).X = st.X ∧ (runCalls cs st).y = st.y
      ∧ (runCalls cs st).wt = st.wt := by
  induction cs generalizing st with
  | nil => exact ⟨rfl, rfl, rfl⟩
  | cons c cs ih =>
    have hstep : runCalls (c :: cs) st = runCalls cs (runCall st c) := rfl
    have hc : (runCall st c).X = st.X ∧ (runCall st c).y = st.y
        ∧ (runCall st c).wt = st.wt := by
      cases c <;> exact ⟨rfl, rfl, rfl⟩
    obtain ⟨h1, h2, h3⟩ := ih (runCall st c)
    rw [hstep]
    exact ⟨h1.trans hc.1, h2.trans hc.2.1, h3.trans hc.2.2⟩

/-- C10: the performance-evaluation operation with default arguments
returns a collection of at least 2 per-repeat entries, so the sample
standard deviation with Bessel's correction (ddof=1) of its result is
well-defined. -/
theorem performance_default_sample_std_defined {d : ℕ}
    (fitR : RidgeFitterU d) (cidx : List (Fin d)) (wt : Fin d → ℚ)
    (rows : List (Row d)) (seed : ℕ) :
    2 ≤ (performance fitR cidx wt rows seed).length
      ∧ (sampleVarB ((performance fitR cidx wt rows seed).map scoreVal)).isSome := by
  have hlen : (performance fitR cidx wt rows seed).length = defaultRepeats := by
    simp [performance, evaluatorScores]
  have hlen2 : ((performance fitR cidx wt rows seed).map scoreVal).length
      = defaultRepeats := by
    rw [List.length_map, hlen]
  constructor
  · rw [hlen]; norm_num [defaultRepeats]
  · rw [sampleVarB, if_neg (by rw [hlen2]; norm_num [defaultRepeats])]
    simp

end HybridModel
